import Mathlib

/- Verification of the Self-Constrained-Control budget/planner core.
   Shallow embedding: Python floats are modelled as rationals, mutable
   objects as explicit state passing, and randomness (numpy generators)
   as explicit draw streams.  Definitions mirror the Python sources in
   `self_constrained_control` (budget_manager.py, monitoring.py,
   planner_module.py, rl/...). -/

namespace SCC

/-- Mirror of `AdaptiveModuleBudget` (budget_manager.py).  `budget_remaining`
starts at `initial_budget`; defaults as in the dataclass. -/
structure AdaptiveModuleBudget where
  initial_budget : ℚ
  sla_ms : ℚ
  budget_remaining : ℚ
  usage : ℚ := 0
  penalty_rate : ℚ := 1/5
  violation_history : List ℚ := []
deriving DecidableEq

/-- `AdaptiveModuleBudget.request` (budget_manager.py lines 28-34): deduct and
record usage iff `budget_remaining >= amount`, else no mutation. -/
def AdaptiveModuleBudget.request (m : AdaptiveModuleBudget) (amount : ℚ) :
    Bool × AdaptiveModuleBudget :=
  if amount ≤ m.budget_remaining then
    (true, { m with budget_remaining := m.budget_remaining - amount,
                    usage := m.usage + amount })
  else
    (false, m)

/-- Overspend fraction `overspend / max(1.0, initial_budget)` used by
`penalize_cycle`. -/
def AdaptiveModuleBudget.overspendFrac (m : AdaptiveModuleBudget) : ℚ :=
  (-m.budget_remaining) / max 1 m.initial_budget

/-- `violation_history` after appending this cycle's overspend fraction. -/
def AdaptiveModuleBudget.appendedHistory (m : AdaptiveModuleBudget) : List ℚ :=
  m.violation_history ++ [m.overspendFrac]

/-- The escalation condition of `penalize_cycle`: at least 3 recorded
violations and the mean of the last 3 exceeds 0.5. -/
def AdaptiveModuleBudget.escalationTriggered (m : AdaptiveModuleBudget) : Prop :=
  3 ≤ m.appendedHistory.length ∧
    1/2 < (m.appendedHistory.drop (m.appendedHistory.length - 3)).sum
      / ((m.appendedHistory.drop (m.appendedHistory.length - 3)).length : ℚ)

instance (m : AdaptiveModuleBudget) : Decidable m.escalationTriggered := by
  unfold AdaptiveModuleBudget.escalationTriggered
  infer_instance

/-- `AdaptiveModuleBudget.penalize_cycle` (budget_manager.py lines 36-46).
Note the source multiplies only the local variable `rate` by 1.5; the field
`penalty_rate` itself is never written. -/
def AdaptiveModuleBudget.penalize_cycle (m : AdaptiveModuleBudget) :
    AdaptiveModuleBudget :=
  if m.budget_remaining < 0 then
    let overspend := -m.budget_remaining
    let rate := if m.escalationTriggered then m.penalty_rate * (3/2) else m.penalty_rate
    { m with violation_history := m.appendedHistory,
             budget_remaining := max 0 (m.budget_remaining - rate * overspend),
             usage := 0 }
  else
    { m with usage := 0 }

/-- `AdaptiveModuleBudget.top_up` (budget_manager.py lines 48-49). -/
def AdaptiveModuleBudget.top_up (m : AdaptiveModuleBudget) (amount : ℚ) :
    AdaptiveModuleBudget :=
  { m with budget_remaining := m.budget_remaining + amount }

/- ----------------------------------------------------------------
   `GameTheoreticBudgetManager.negotiate_resources`
   (budget_manager.py lines 165-181).  Modules live in a list in dict
   insertion order; module identity is the list index.
   ---------------------------------------------------------------- -/

/-- The surplus list of `negotiate_resources`: index and transferable amount
`budget_remaining - usage` for modules with `budget_remaining >
1.5 * max(1.0, usage)`, in encounter order starting at index `i`. -/
def surplusListAux (i : ℕ) : List AdaptiveModuleBudget → List (ℕ × ℚ)
  | [] => []
  | m :: rest =>
    (if 3/2 * max 1 m.usage < m.budget_remaining
      then [(i, m.budget_remaining - m.usage)] else [])
      ++ surplusListAux (i + 1) rest

/-- The deficit list of `negotiate_resources`: index and needed amount
`0.2 * initial_budget - budget_remaining` for modules with
`budget_remaining < 0.2 * initial_budget`, in encounter order. -/
def deficitListAux (i : ℕ) : List AdaptiveModuleBudget → List (ℕ × ℚ)
  | [] => []
  | m :: rest =>
    (if m.budget_remaining < 1/5 * m.initial_budget
      then [(i, 1/5 * m.initial_budget - m.budget_remaining)] else [])
      ++ deficitListAux (i + 1) rest

/-- One transfer `modules[s].budget_remaining -= give;
modules[d].budget_remaining += give` over the list of remaining balances
(the second read happens after the first write, as in the source). -/
def transferGive (rems : List ℚ) (s d : ℕ) (give : ℚ) : List ℚ :=
  let r1 := rems.set s (rems.getD s 0 - give)
  r1.set d (r1.getD d 0 + give)

/-- One donor pass of `negotiate_resources`: scan the (precomputed) deficit
list in order and perform the first transfer whose `min(surplus, deficit)`
exceeds 10, if any (the inner loop `break`s after it). -/
def donorStep (deficits : List (ℕ × ℚ)) (rems : List ℚ) (donor : ℕ × ℚ) :
    List ℚ :=
  match deficits.find? (fun dd => decide (10 < min donor.2 dd.2)) with
  | some dd => transferGive rems donor.1 dd.1 (min donor.2 dd.2)
  | none => rems

/-- `negotiate_resources` on a list of ledgers: compute the surplus and
deficit lists from the pre-call state, then run every donor in order over
the list of balances. -/
def negotiate_resources (ms : List AdaptiveModuleBudget) :
    List AdaptiveModuleBudget :=
  let sur := surplusListAux 0 ms
  let defc := deficitListAux 0 ms
  let rems := sur.foldl (donorStep defc) (ms.map (·.budget_remaining))
  List.zipWith (fun m r => { m with budget_remaining := r }) ms rems

/- ----------------------------------------------------------------
   `PredictiveBudgetManager.predict_next_usage` and
   `GameTheoreticBudgetManager.find_nash_equilibrium`
   (budget_manager.py lines 104-163).  `time.time()` is an explicit
   `now` argument; the md5 cache key is modelled injectively by the
   pre-hash payload (the sorted `(name, remaining rounded to one
   decimal)` pairs); the dict cache is an association list consulted
   by first match.
   ---------------------------------------------------------------- -/

instance : Inhabited AdaptiveModuleBudget :=
  ⟨{ initial_budget := 0, sla_ms := 0, budget_remaining := 0 }⟩

/-- State of a `GameTheoreticBudgetManager`: pool, ledgers in dict insertion
order, per-module usage history (most recent last, bounded to 10 by
`end_cycle`), the equilibrium cache and its last-computation time. -/
structure GTState where
  global_pool : ℚ
  modules : List (String × AdaptiveModuleBudget)
  usage_history : List (String × List ℚ)
  cache : List (List (String × ℚ) × List (String × ℚ)) := []
  cache_t : ℚ := 0

/-- `PredictiveBudgetManager.predict_next_usage` (budget_manager.py lines
109-116): raw usage below 3 samples, else mean of the last 5 plus trend. -/
def predict_next_usage (st : GTState) (name : String) : ℚ :=
  let hist := (st.usage_history.lookup name).getD []
  if hist.length < 3 then ((st.modules.lookup name).getD default).usage
  else
    let recent := hist.drop (hist.length - 5)
    let avg := recent.sum / (recent.length : ℚ)
    let trend := (recent.getLastD 0 - recent.headD 0) / ((max 1 recent.length : ℕ) : ℚ)
    max 0 (avg + trend)

/-- Insertion step for the Bool-comparator sort below. -/
def insertLeB {α : Type} (le : α → α → Bool) (x : α) : List α → List α
  | [] => [x]
  | y :: ys => if le x y then x :: y :: ys else y :: insertLeB le x ys

/-- Stable insertion sort with a Bool comparator (models Python `sorted`). -/
def sortLeB {α : Type} (le : α → α → Bool) : List α → List α
  | [] => []
  | x :: xs => insertLeB le x (sortLeB le xs)

/-- Name comparison used by `sorted(self.modules.items())`. -/
def nameLe (a b : String × AdaptiveModuleBudget) : Bool :=
  !(compare a.1 b.1 == Ordering.gt)

/-- `f"{remaining:.1f}"`: rounding to one decimal for the cache key. -/
def roundTenth (x : ℚ) : ℚ := ((round (x * 10) : ℤ) : ℚ) / 10

/-- The equilibrium cache key (budget_manager.py lines 142-143), modelled as
the pre-hash payload: sorted `(name, remaining rounded to one decimal)`. -/
def cacheKey (st : GTState) : List (String × ℚ) :=
  (sortLeB nameLe st.modules).map (fun p => (p.1, roundTenth p.2.budget_remaining))

/-- One pass of the fixed-point loop in `find_nash_equilibrium` (lines
148-155): the candidate strategy for every module. -/
def computeStrategiesOnce (st : GTState) : List (String × ℚ) :=
  st.modules.map (fun p =>
    let others := ((st.modules.filter (fun q => q.1 != p.1)).map
      (fun q => q.2.budget_remaining)).sum
    let available := max 0 (st.global_pool - others)
    let predicted := predict_next_usage st p.1
    let risk := (1/10) * (p.2.violation_history.length : ℚ)
    (p.1, min available (max 0 (6/5 * predicted - risk))))

/-- The relaxed convergence test (line 158). -/
def convergedStrategies (st : GTState) (strat : List (String × ℚ)) : Bool :=
  st.modules.all (fun p =>
    decide (|(strat.lookup p.1).getD 0 - p.2.budget_remaining| < 5))

/-- The bounded fixed-point loop (`for _ in range(10)`), also counting the
`predict_next_usage` invocations (one per module per pass). -/
def nashLoop (st : GTState) : ℕ → List (String × ℚ) → ℕ → List (String × ℚ) × ℕ
  | 0, strat, cnt => (strat, cnt)
  | n + 1, _, cnt =>
    let strat := computeStrategiesOnce st
    let cnt' := cnt + st.modules.length
    if convergedStrategies st strat then (strat, cnt') else nashLoop st n strat cnt'

/-- Result of one `find_nash_equilibrium` call: the returned mapping, the
manager state afterwards, and how many times `predict_next_usage` ran. -/
structure NashResult where
  result : List (String × ℚ)
  state : GTState
  predictCalls : ℕ

/-- `GameTheoreticBudgetManager.find_nash_equilibrium` (lines 140-163).
Cache hit requires the key present and `now - cache_t < 1.0` (the TTL);
a hit returns the cached mapping and runs no prediction; a miss computes,
stores, and stamps `cache_t := now`. -/
def find_nash_equilibrium (st : GTState) (now : ℚ) : NashResult :=
  let key := cacheKey st
  if (st.cache.lookup key).isSome ∧ now - st.cache_t < 1 then
    { result := (st.cache.lookup key).getD [], state := st, predictCalls := 0 }
  else
    let r := nashLoop st 10 [] 0
    { result := r.1,
      state := { st with cache := (key, r.1) :: st.cache, cache_t := now },
      predictCalls := r.2 }

/- ----------------------------------------------------------------
   monitoring.py: `BudgetHealth`, `GracefulDegradation`
   ---------------------------------------------------------------- -/

/-- Mirror of `BudgetHealth` (monitoring.py lines 37-40). -/
structure BudgetHealth where
  healthy : Bool
  deficits : List (String × ℚ) := []

/-- The degradation mode strings used by `GracefulDegradation`. -/
def modeFULL : String := "FULL"

/-- Degradation mode `REDUCED`. -/
def modeREDUCED : String := "REDUCED"

/-- Degradation mode `SAFE`. -/
def modeSAFE : String := "SAFE"

/-- Degradation mode `MINIMAL` (named in the spec's mode set; monitoring.py
never assigns it). -/
def modeMINIMAL : String := "MINIMAL"

/-- Mirror of `GracefulDegradation` (monitoring.py lines 58-76); `mode`
starts as `"FULL"`. -/
structure GracefulDegradation where
  mode : String := modeFULL

/-- `GracefulDegradation.assess_and_degrade` (monitoring.py lines 62-76):
returns the new mode and the object with it stored. -/
def GracefulDegradation.assess_and_degrade (g : GracefulDegradation)
    (battery user_energy : ℚ) (health : BudgetHealth)
    (thresholds : ℚ × ℚ) : String × GracefulDegradation :=
  let mode :=
    if battery ≤ thresholds.1 ∨ user_energy ≤ thresholds.2 then modeSAFE
    else if health.healthy = false then modeREDUCED
    else modeFULL
  (mode, { g with mode := mode })

/- ----------------------------------------------------------------
   planner_module.py: the decision gate (`decide_with_stability`,
   `_budget_gate`, `estimate_params`, `decide_rule_based`,
   `LyapunovStabilityAnalyzer`) with `action_size = 3`.
   `self.rng.normal(0.0, 0.5, 3)` is modelled by an explicit draw
   stream `noise : ℕ → ℚ`; each `estimate_params` call consumes the
   three draws at its current index.
   ---------------------------------------------------------------- -/

/-- The `base` matrix rows of `estimate_params` (planner_module.py lines
121-129): `(reward, cost, success)` per action.  Indices ≥ 3 are out of
bounds in the source and unreachable from `decide_with_stability`. -/
def baseParams : ℕ → ℚ × ℚ × ℚ
  | 0 => (10, 5, 8)
  | 1 => (5, 2, 4)
  | 2 => (0, 0, 10)
  | _ => (0, 0, 0)

/-- `estimate_params` at noise index `k`: base row plus the next three
draws. -/
def estimate_params (noise : ℕ → ℚ) (k : ℕ) (action : ℕ) : ℚ × ℚ × ℚ :=
  ((baseParams action).1 + noise k,
   (baseParams action).2.1 + noise (k + 1),
   (baseParams action).2.2 + noise (k + 2))

/-- `LyapunovStabilityAnalyzer.V` with `P = [[2, 0.1], [0.1, 2]]`
(planner_module.py lines 21-27). -/
def lyapunovV (s target : ℚ × ℚ) : ℚ :=
  let e0 := s.1 - target.1
  let e1 := s.2 - target.2
  2 * e0 * e0 + (1/10) * e0 * e1 + (1/10) * e1 * e0 + 2 * e1 * e1

/-- `LyapunovStabilityAnalyzer.stable`: `ΔV` and strict decrease. -/
def lyapunovDeltaV (s ns target : ℚ × ℚ) : ℚ :=
  lyapunovV ns target - lyapunovV s target

/-- The planner's fixed target state `[75.0, 75.0]`. -/
def targetState : ℚ × ℚ := (75, 75)

/-- `decide_rule_based` (planner_module.py lines 134-142). -/
def decide_rule_based (force_simplify : Bool) (st : ℚ × ℚ) : ℕ :=
  if force_simplify then 1
  else if 50 < st.2 ∧ 30 < st.1 then 0
  else if 30 < st.2 ∧ 15 < st.1 then 1
  else 2

/-- `encode_state` (rl/policy.py lines 9-15): floor-divide by 10, clip to
the bin bounds. -/
def encode_state (st : ℚ × ℚ) (bins : ℕ × ℕ) : ℕ × ℕ :=
  ((max 0 (min ⌊st.1 / 10⌋ ((bins.1 : ℤ) - 1))).toNat,
   (max 0 (min ⌊st.2 / 10⌋ ((bins.2 : ℤ) - 1))).toNat)

/-- A Q-table over `(battery_bin, energy_bin, action)`. -/
def QTable : Type := ℕ → ℕ → ℕ → ℚ

/-- `TabularPolicy.q_values(state)`: the row of the table at the encoded
state (bins `(11, 11)`). -/
def qRow (qt : QTable) (st : ℚ × ℚ) : ℕ → ℚ :=
  fun a => qt (encode_state st (11, 11)).1 (encode_state st (11, 11)).2 a

/-- `np.min` over the 3-action Q-row. -/
def rowMin (row : ℕ → ℚ) : ℚ := min (row 0) (min (row 1) (row 2))

/-- The shifted values `q - min(q) + 1e-6` of
`propose_action_distribution`. -/
def shiftedRow (row : ℕ → ℚ) (a : ℕ) : ℚ := row a - rowMin row + 1/1000000

/-- The normalized probabilities of `propose_action_distribution`. -/
def probRow (row : ℕ → ℚ) (a : ℕ) : ℚ :=
  shiftedRow row a / (shiftedRow row 0 + shiftedRow row 1 + shiftedRow row 2)

/-- `sorted(..., key=lambda x: (-x[2], -x[1], x[0]))`: ranking comparator
over `(action, prob, value)` triples. -/
def proposalLe (a b : ℕ × ℚ × ℚ) : Bool :=
  if a.2.2 ≠ b.2.2 then decide (b.2.2 < a.2.2)
  else if a.2.1 ≠ b.2.1 then decide (b.2.1 < a.2.1)
  else decide (a.1 ≤ b.1)

/-- `TabularPolicy.propose_action_distribution` (rl/policy.py lines 52-66)
for the 3-action table: the ranked `(action, probability, value)` triples,
truncated to `max(1, min(k, 3))`. -/
def propose_action_distribution (qt : QTable) (st : ℚ × ℚ) (k : ℕ) :
    List (ℕ × ℚ × ℚ) :=
  let row := qRow qt st
  let triples := (List.range 3).map (fun i => (i, probRow row i, row i))
  (sortLeB proposalLe triples).take (max 1 (min k 3))

/-- `PlannerModule._budget_gate` (planner_module.py lines 242-244) with the
cost drawn at noise index `k`:
`cost <= state[0] and cost * 0.5 <= state[1]`. -/
def budget_gate (noise : ℕ → ℚ) (k : ℕ) (st : ℚ × ℚ) (action : ℕ) : Bool :=
  let cost := (estimate_params noise k action).2.1
  decide (cost ≤ st.1 ∧ cost * (1/2) ≤ st.2)

/-- Accumulator of the candidate loop in `decide_with_stability`:
best action so far (`none` score = `-inf`), the `seen` set, and the
current noise index. -/
structure DecideAcc where
  best : ℕ
  bestScore : Option ℚ
  seen : List ℕ
  k : ℕ

/-- One iteration of the candidate loop (planner_module.py lines 159-176):
dedup, budget gate (3 draws), re-estimated cost (3 more draws), stability
gate, and best-score tracking. -/
def decideStep (noise : ℕ → ℚ) (rl_enabled : Bool) (row : ℕ → ℚ)
    (st : ℚ × ℚ) (acc : DecideAcc) (action : ℕ) : DecideAcc :=
  if action ∈ acc.seen then acc
  else
    let seen' := action :: acc.seen
    if budget_gate noise acc.k st action = false then
      { acc with seen := seen', k := acc.k + 3 }
    else
      let cost := (estimate_params noise (acc.k + 3) action).2.1
      let ns := (max (st.1 - cost) 0, max (st.2 - cost * (1/2)) 0)
      let dv := lyapunovDeltaV st ns targetState
      if ¬ dv < 0 then
        { acc with seen := seen', k := acc.k + 6 }
      else
        let score := (if rl_enabled then row action else 0) + -dv
        let better := match acc.bestScore with
          | none => true
          | some b => decide (b < score)
        if better then
          { best := action, bestScore := some score, seen := seen', k := acc.k + 6 }
        else
          { acc with seen := seen', k := acc.k + 6 }

/-- `PlannerModule.decide_with_stability` (planner_module.py lines 144-179)
with `action_size = 3`.  The LQR-derived action is an explicit argument
(`int(np.clip(int(np.argmax(u)), 0, 2))`, a nonnegative index clipped to
`≤ 2` here); candidates are the ranked reinforcement proposals (when
enabled) followed by the LQR action and the rule-based baseline; the loop
starts from `best_action = 2` with score `-inf`. -/
def decide_with_stability (noise : ℕ → ℚ) (rl_enabled force_simplify : Bool)
    (qt : QTable) (lqrAction : ℕ) (st : ℚ × ℚ) : ℕ :=
  let baseline := decide_rule_based force_simplify st
  let cands :=
    (if rl_enabled then (propose_action_distribution qt st 3).map (·.1) else [])
      ++ [min lqrAction 2, baseline]
  (cands.foldl (decideStep noise rl_enabled (qRow qt st) st)
    { best := 2, bestScore := none, seen := [], k := 0 }).best

/- ----------------------------------------------------------------
   rl/persistence.py: `PolicyArtifact`, `save_policy_artifact`,
   `load_policy_artifact`.  The npz serialization round-trips every
   field, so the file content is modelled by the artifact record; the
   sha256 digest is an abstract function argument (its
   collision-freeness is a hypothesis where needed).
   ---------------------------------------------------------------- -/

/-- Mirror of `PolicyArtifact` (rl/persistence.py lines 13-23). -/
structure PolicyArtifact where
  schema_version : String
  algo : String
  hyperparams : List (String × ℚ)
  weights : List (List (List ℚ))
  feature_spec : List (String × List ℕ)
  action_mapping : List ℤ
  seed : ℤ
  timestamp : ℚ
  policy_version : String
deriving DecidableEq

/-- The two files written by `save_policy_artifact`: the npz payload and
the `.sha256` sidecar; `none` models an absent file. -/
structure SavedFiles where
  npz : Option PolicyArtifact
  sha : Option ℕ

/-- The failure modes of `load_policy_artifact`: `FileNotFoundError`
("policy artifact or checksum missing") and `ValueError`
("sha256 mismatch for policy artifact"). -/
inductive LoadError
  | fileNotFound
  | shaMismatch
deriving DecidableEq

/-- `save_policy_artifact` (rl/persistence.py lines 34-54): write the
payload and its digest sidecar. -/
def save_policy_artifact (digest : PolicyArtifact → ℕ) (a : PolicyArtifact) :
    SavedFiles :=
  { npz := some a, sha := some (digest a) }

/-- `load_policy_artifact` (rl/persistence.py lines 57-78): raise if either
file is absent, raise if the recomputed digest differs from the stored one,
else return the parsed artifact. -/
def load_policy_artifact (digest : PolicyArtifact → ℕ) (fs : SavedFiles) :
    Except LoadError PolicyArtifact :=
  match fs.npz, fs.sha with
  | none, _ => .error .fileNotFound
  | some _, none => .error .fileNotFound
  | some p, some expected =>
    if expected ≠ digest p then .error .shaMismatch else .ok p

/- ----------------------------------------------------------------
   `PlannerModule._load_model` (planner_module.py lines 265-274) and the
   construction-time reinforcement state.
   ---------------------------------------------------------------- -/

/-- The reinforcement-relevant planner state set by `__init__` and
`_load_model`: the capability flag, the policy weights, and the policy
version. -/
structure PlannerRLState where
  rl_enabled : Bool
  weights : List (List (List ℚ))
  rl_policy_version : String

/-- The fresh `TabularPolicy` table: `(11, 11, 3)` zeros. -/
def zeroWeights : List (List (List ℚ)) :=
  List.replicate 11 (List.replicate 11 (List.replicate 3 0))

/-- The planner's reinforcement state before `_load_model` runs:
`rl_enabled = True`, zero table, version `"v0"`. -/
def freshPlannerRL : PlannerRLState :=
  { rl_enabled := true, weights := zeroWeights, rl_policy_version := "v0" }

/-- `PlannerModule._load_model`: return unchanged when the model file does
not exist; on a load exception set `rl_enabled := False`; on success adopt
the loaded weights and version. -/
def load_model (digest : PolicyArtifact → ℕ) (fs : SavedFiles)
    (p : PlannerRLState) : PlannerRLState :=
  if fs.npz.isNone then p
  else
    match load_policy_artifact digest fs with
    | .error _ => { p with rl_enabled := false }
    | .ok a => { p with weights := a.weights,
                        rl_policy_version := a.policy_version }

/-- Planner construction: the fresh reinforcement state passed through
`_load_model` against the files at `cfg.artifact_path`. -/
def mkPlannerRLState (digest : PolicyArtifact → ℕ) (fs : SavedFiles) :
    PlannerRLState :=
  load_model digest fs freshPlannerRL

/- ----------------------------------------------------------------
   rl/reward.py, rl/buffer.py, rl/trainer.py and
   `PlannerModule.train` (planner_module.py lines 197-240), with the
   planner defaults: gamma 0.95, alpha 0.1, epsilon-greedy 0.1,
   max_episodes 3, max_steps_per_episode 8 (also the trainer's
   max_steps_per_epoch).  The policy's generator is modelled by the
   draw streams `uS` (uniform floats) and `iS` (integer draws), the
   planner's generator by `noise` as above.
   ---------------------------------------------------------------- -/

/-- `delta_v_penalty` (rl/reward.py lines 8-10). -/
def delta_v_penalty (dv : ℚ) : ℚ :=
  if 0 ≤ dv then -(max 0 dv) - 1/2 else 1/2

/-- `budget_efficiency` (rl/reward.py lines 13-17). -/
def budget_efficiency (spent available : ℚ) : ℚ :=
  if available ≤ 0 then -1 else min 1 (max 0 (1 - spent / available))

/-- `sla_penalty` (rl/reward.py lines 20-24). -/
def sla_penalty (latency sla : ℚ) : ℚ :=
  if sla ≤ 0 then -1 else -(max 0 (latency - sla)) / sla

/-- `task_success` (rl/reward.py lines 27-28). -/
def task_success (intent action_name : String) (approved : Bool) : ℚ :=
  if approved ∧ intent = action_name then 1 else 0

/-- `compute_reward` (rl/reward.py lines 39-61) with the default weights
`(1, 0.5, 0.5, 1)`, clipped to `[-10, 10]`. -/
def compute_reward (dv spent available latency sla : ℚ)
    (intent action_name : String) (approved : Bool) : ℚ :=
  let r := 1 * delta_v_penalty dv + (1/2) * budget_efficiency spent available
    + (1/2) * sla_penalty latency sla
    + 1 * task_success intent action_name approved
  max (-10) (min 10 r)

/-- Mirror of `Transition` (rl/buffer.py lines 10-16). -/
structure Transition where
  state : ℚ × ℚ
  action : ℕ
  reward : ℚ
  next_state : ℚ × ℚ
  done : Bool

/-- `TrajectoryBuffer.add` with capacity 256: FIFO-evict, then append. -/
def bufferAdd (buf : List Transition) (t : Transition) : List Transition :=
  (if 256 ≤ buf.length then buf.drop 1 else buf) ++ [t]

/-- `np.argmax` over a 3-action row: the first maximal index. -/
def argmax3 (row : ℕ → ℚ) : ℕ :=
  if row 0 < row 1 then (if row 1 < row 2 then 2 else 1)
  else (if row 0 < row 2 then 2 else 0)

/-- `TabularPolicy.propose_action` (rl/policy.py lines 67-71): with
probability `epsilon = 0.1` a uniform action (one integer draw), else the
argmax of the encoded row; returns the action and the advanced stream
counters. -/
def propose_action (qt : QTable) (uS : ℕ → ℚ) (iS : ℕ → ℕ)
    (ui ii : ℕ) (st : ℚ × ℚ) : ℕ × ℕ × ℕ :=
  if uS ui < 1/10 then (iS ii % 3, ui + 1, ii + 1)
  else (argmax3 (qRow qt st), ui + 1, ii)

/-- The fixed `intent`/`action_name` string used by `_simulate_transition`. -/
def trainTag : String := "train"

/-- `PlannerModule._simulate_transition` (planner_module.py lines 246-263)
at noise index `k`: returns `(reward, next_state, done)`. -/
def simulate_transition (noise : ℕ → ℚ) (k : ℕ) (st : ℚ × ℚ) (action : ℕ) :
    ℚ × (ℚ × ℚ) × Bool :=
  let rcs := estimate_params noise k action
  let cost := rcs.2.1
  let ns := (max (st.1 - cost) 0, max (st.2 - cost * (1/2)) 0)
  let dv := lyapunovDeltaV st ns targetState
  let stableB := decide (dv < 0)
  let reward := compute_reward dv cost (max st.1 1) 20 50 trainTag trainTag
    (stableB && decide ((0 : ℚ) ≤ rcs.2.2))
  (rcs.1 + reward, ns, decide (ns.1 < 5) || decide (ns.2 < 5))

/-- Accumulator of the rollout-collection loops in `train`: the buffer and
the three stream counters. -/
structure RolloutAcc where
  buf : List Transition
  ui : ℕ
  ii : ℕ
  nk : ℕ

/-- The inner step loop of one training episode (`for step in range(8)`,
breaking on `done`; the `step + 1 >= max_steps` break coincides with the
loop bound). -/
def rolloutSteps (qt : QTable) (uS : ℕ → ℚ) (iS : ℕ → ℕ) (noise : ℕ → ℚ) :
    ℕ → (ℚ × ℚ) → RolloutAcc → RolloutAcc
  | 0, _, acc => acc
  | fuel + 1, st, acc =>
    let pa := propose_action qt uS iS acc.ui acc.ii st
    let sim := simulate_transition noise acc.nk st pa.1
    let acc' : RolloutAcc :=
      { buf := bufferAdd acc.buf
          { state := st, action := pa.1, reward := sim.1,
            next_state := sim.2.1, done := sim.2.2 },
        ui := pa.2.1, ii := pa.2.2, nk := acc.nk + 3 }
    if sim.2.2 then acc' else rolloutSteps qt uS iS noise fuel sim.2.1 acc'

/-- The episode loop of `train`: 3 episodes from
`[80 - 2 * episode, 75 - 2 * episode]`, 8 steps each. -/
def collectRollouts (qt : QTable) (uS : ℕ → ℚ) (iS : ℕ → ℕ)
    (noise : ℕ → ℚ) : List Transition :=
  ((List.range 3).foldl
    (fun acc e =>
      rolloutSteps qt uS iS noise 8 (80 - 2 * (e : ℚ), 75 - 2 * (e : ℚ)) acc)
    { buf := [], ui := 0, ii := 0, nk := 0 }).buf

/-- Pointwise update of the Q-table (`TabularPolicy.update_q`). -/
def qUpdate (qt : QTable) (b e a : ℕ) (v : ℚ) : QTable :=
  fun b' e' a' => if b' = b ∧ e' = e ∧ a' = a then v else qt b' e' a'

/-- `QLearningTrainer.train_step` (rl/trainer.py lines 26-35): the TD
update; returns the new table and the TD error. -/
def train_step (gamma alpha : ℚ) (qt : QTable) (tr : Transition) :
    QTable × ℚ :=
  let idx := encode_state tr.state (11, 11)
  let q_sa := qt idx.1 idx.2 tr.action
  let nrow := qRow qt tr.next_state
  let next_q := max (nrow 0) (max (nrow 1) (nrow 2))
  let target := tr.reward + gamma * next_q * (1 - if tr.done then 1 else 0)
  let td := target - q_sa
  (qUpdate qt idx.1 idx.2 tr.action (q_sa + alpha * td), td)

/-- One epoch of `QLearningTrainer.train_epochs`: the buffer in insertion
order, capped at `max_steps_per_epoch` transitions, accumulating TD
errors. -/
def trainEpoch (gamma alpha : ℚ) (maxSteps : ℕ) (buf : List Transition)
    (start : QTable × List ℚ) : QTable × List ℚ :=
  (buf.take maxSteps).foldl
    (fun acc tr =>
      let r := train_step gamma alpha acc.1 tr
      (r.1, acc.2 ++ [r.2]))
    start

/-- `QLearningTrainer.train_epochs` (rl/trainer.py lines 37-44): clear the
TD list, then run the requested epochs. -/
def train_epochs (gamma alpha : ℚ) (maxSteps : ℕ) (qt : QTable)
    (buf : List Transition) (epochs : ℕ) : QTable × List ℚ :=
  (List.range epochs).foldl
    (fun acc _ => trainEpoch gamma alpha maxSteps buf acc) (qt, [])

/-- The planner state touched by `train`: the Q-table and the
reinforcement counters/tags. -/
structure TrainPlanner where
  q : QTable
  rl_enabled : Bool
  rl_last_td_error : ℚ
  rl_updates : ℕ
  rl_policy_version : String

/-- `PlannerModule.train` (planner_module.py lines 197-240): no-op when
reinforcement is disabled; otherwise clear the buffer, collect 3 synthetic
episodes, train the requested epochs, update the TD statistics, and stamp
`rl_policy_version` from the wall clock (`timeNow`).  The artifact write at
the end mutates only the filesystem, not the planner state, and is omitted
here. -/
def planner_train (p : TrainPlanner) (uS : ℕ → ℚ) (iS : ℕ → ℕ)
    (noise : ℕ → ℚ) (epochs : ℕ) (timeNow : ℤ) : TrainPlanner :=
  if p.rl_enabled = false then p
  else
    let buf := collectRollouts p.q uS iS noise
    let r := train_epochs (19/20) (1/10) 8 p.q buf epochs
    { q := r.1,
      rl_enabled := p.rl_enabled,
      rl_last_td_error :=
        if r.2.length ≠ 0 then (r.2.map (|·|)).sum / (r.2.length : ℚ)
        else p.rl_last_td_error,
      rl_updates := p.rl_updates + r.2.length,
      rl_policy_version := "v" ++ toString timeNow }

/- ----------------------------------------------------------------
   Concrete instances used by witnesses and counterexamples.
   ---------------------------------------------------------------- -/

/-- A ledger with 100 units remaining. -/
def reqLedger : AdaptiveModuleBudget :=
  { initial_budget := 100, sla_ms := 10, budget_remaining := 100 }

/-- A ledger overspent by 8 of 10 with two prior violations of 0.9: the
escalation condition of `penalize_cycle` holds at cycle end. -/
def escLedger : AdaptiveModuleBudget :=
  { initial_budget := 10, sla_ms := 20, budget_remaining := -8,
    usage := 0, penalty_rate := 1/5, violation_history := [9/10, 9/10] }

/-- A constant noise stream: every normal draw is 1. -/
def oneNoise : ℕ → ℚ := fun _ => 1

/-- The all-zero Q-table. -/
def zeroQ : QTable := fun _ _ _ => 0

/-- A module name for the equilibrium-cache scenario. -/
def nmM : String := "m"

/-- A single healthy module ledger for the equilibrium-cache scenario. -/
def cexModule : AdaptiveModuleBudget :=
  { initial_budget := 100, sla_ms := 10, budget_remaining := 100 }

/-- The manager state with an empty cache. -/
def freshGT : GTState :=
  { global_pool := 1000,
    modules := [(nmM, cexModule)],
    usage_history := [(nmM, [])],
    cache := [],
    cache_t := 0 }

/-- `freshGT` with its own key cached (as after a computation at time 0)
against a mapping that recomputation does not reproduce. -/
def cachedGT : GTState :=
  { freshGT with cache := [(cacheKey freshGT, [(nmM, 42)])], cache_t := 0 }

/-- The digest function that reads no content at all (for scenarios where
only file presence matters). -/
def digestZero : PolicyArtifact → ℕ := fun _ => 0

/-- A digest function for witnesses: the artifact's seed. -/
def digestSeed : PolicyArtifact → ℕ := fun a => a.seed.natAbs

/-- The filesystem with neither the artifact nor the sidecar present. -/
def absentFiles : SavedFiles := { npz := none, sha := none }

/-- A concrete artifact. -/
def artifactA : PolicyArtifact :=
  { schema_version := "1.0", algo := "tabular_q_learning",
    hyperparams := [], weights := zeroWeights, feature_spec := [],
    action_mapping := [0, 1, 2], seed := 0, timestamp := 0,
    policy_version := "v1" }

/-- `artifactA` with one field (the seed) altered: a corrupted payload. -/
def artifactTampered : PolicyArtifact := { artifactA with seed := 1 }

/-- A donor ledger with ample surplus. -/
def donorLedger : AdaptiveModuleBudget :=
  { initial_budget := 100, sla_ms := 10, budget_remaining := 200, usage := 10 }

/-- A ledger below a fifth of its initial budget. -/
def needyLedger : AdaptiveModuleBudget :=
  { initial_budget := 100, sla_ms := 10, budget_remaining := 5, usage := 2 }

/-- A ledger with negative recorded usage (reachable via `request` of a
negative amount): its surplus amount overstates what it can afford. -/
def negUsageLedger : AdaptiveModuleBudget :=
  { initial_budget := 100, sla_ms := 10, budget_remaining := 12, usage := -50 }

/- ================================================================
   Theorems
   ================================================================ -/

/-- C1: `request(amount)` succeeds, deducting `amount` from
`budget_remaining` and adding it to `usage`, if and only if
`budget_remaining ≥ amount` before the call; a denied request returns
false and leaves the ledger unchanged. -/
theorem request_deducts_iff_sufficient (m : AdaptiveModuleBudget) (a : ℚ) :
    (((m.request a).1 = true ∧
        (m.request a).2.budget_remaining = m.budget_remaining - a ∧
        (m.request a).2.usage = m.usage + a) ↔ a ≤ m.budget_remaining) ∧
    (¬ a ≤ m.budget_remaining →
      (m.request a).1 = false ∧ (m.request a).2 = m) := by
  by_cases h : a ≤ m.budget_remaining <;>
    simp [AdaptiveModuleBudget.request, h]

/-- C1 witness: a 30-unit request against 100 remaining succeeds and
mutates; a 200-unit request is denied and mutates nothing. -/
theorem request_deducts_witness :
    ((reqLedger.request 30).1 = true ∧
      (reqLedger.request 30).2.budget_remaining = reqLedger.budget_remaining - 30 ∧
      (reqLedger.request 30).2.usage = reqLedger.usage + 30) ∧
    ((reqLedger.request 200).1 = false ∧ (reqLedger.request 200).2 = reqLedger) :=
  ⟨(request_deducts_iff_sufficient reqLedger 30).1.mpr (by norm_num [reqLedger]),
   (request_deducts_iff_sufficient reqLedger 200).2 (by norm_num [reqLedger])⟩

/-- C6: `penalize_cycle` always resets `usage` to 0 and never leaves
`budget_remaining` negative. -/
theorem penalize_cycle_resets_usage_nonneg (m : AdaptiveModuleBudget) :
    m.penalize_cycle.usage = 0 ∧ 0 ≤ m.penalize_cycle.budget_remaining := by
  by_cases h : m.budget_remaining < 0
  · simp [AdaptiveModuleBudget.penalize_cycle, h]
  · simp [AdaptiveModuleBudget.penalize_cycle, h]
    linarith

/-- The escalation condition holds at `escLedger`: the appended history is
`[0.9, 0.9, 0.8]` with mean `13/15 > 1/2`. -/
lemma escLedger_escalation : escLedger.escalationTriggered := by
  norm_num [AdaptiveModuleBudget.escalationTriggered,
    AdaptiveModuleBudget.appendedHistory, AdaptiveModuleBudget.overspendFrac,
    escLedger]

/-- C4 counterexample: at a state whose overspend triggers the escalation
condition, `penalize_cycle` leaves the `penalty_rate` field at its old
value instead of multiplying it by 1.5 (the source escalates only the
local deduction rate). -/
theorem penalize_cycle_rate_not_persisted :
    escLedger.budget_remaining < 0 ∧ escLedger.escalationTriggered ∧
    escLedger.penalize_cycle.penalty_rate ≠ escLedger.penalty_rate * (3/2) := by
  refine ⟨by norm_num [escLedger], escLedger_escalation, ?_⟩
  norm_num [AdaptiveModuleBudget.penalize_cycle, escLedger_escalation, escLedger]

/-- C4 amended: when `budget_remaining` is negative at cycle end and the
trailing 3-sample mean of violation ratios (after appending the new
overspend ratio) exceeds 0.5, `penalize_cycle` deducts at the escalated
rate `penalty_rate * 1.5` for this cycle, but the stored `penalty_rate`
field is unchanged after the call: the escalation is transient, not
persistent. -/
theorem penalize_cycle_escalation_transient (m : AdaptiveModuleBudget)
    (hneg : m.budget_remaining < 0) (hesc : m.escalationTriggered) :
    m.penalize_cycle.budget_remaining
        = max 0 (m.budget_remaining - m.penalty_rate * (3/2) * (-m.budget_remaining)) ∧
    m.penalize_cycle.penalty_rate = m.penalty_rate ∧
    m.penalize_cycle.violation_history = m.appendedHistory ∧
    m.penalize_cycle.usage = 0 := by
  simp [AdaptiveModuleBudget.penalize_cycle, hneg, hesc]

/-- C4 witness: the amended behavior at the concrete escalating ledger. -/
theorem penalize_cycle_escalation_transient_witness :
    escLedger.penalize_cycle.budget_remaining
        = max 0 (escLedger.budget_remaining
            - escLedger.penalty_rate * (3/2) * (-escLedger.budget_remaining)) ∧
    escLedger.penalize_cycle.penalty_rate = escLedger.penalty_rate ∧
    escLedger.penalize_cycle.violation_history = escLedger.appendedHistory ∧
    escLedger.penalize_cycle.usage = 0 :=
  penalize_cycle_escalation_transient escLedger (by norm_num [escLedger])
    escLedger_escalation

/-- C10: `assess_and_degrade` returns and stores only one of the modes
FULL, REDUCED, SAFE; the mode MINIMAL is never produced. -/
theorem assess_and_degrade_mode_range (g : GracefulDegradation)
    (battery user_energy : ℚ) (health : BudgetHealth) (thr : ℚ × ℚ) :
    ((g.assess_and_degrade battery user_energy health thr).1 = modeFULL ∨
      (g.assess_and_degrade battery user_energy health thr).1 = modeREDUCED ∨
      (g.assess_and_degrade battery user_energy health thr).1 = modeSAFE) ∧
    (g.assess_and_degrade battery user_energy health thr).1 ≠ modeMINIMAL ∧
    (g.assess_and_degrade battery user_energy health thr).2.mode
      = (g.assess_and_degrade battery user_energy health thr).1 := by
  unfold GracefulDegradation.assess_and_degrade
  split_ifs <;> simp <;> decide

/-- C7: saving an artifact and loading it from the same path yields equal
`weights`, `policy_version` and `hyperparams`; and a payload whose digest
differs from the stored one (as after altering any byte, absent a digest
collision) makes `load` raise instead of returning data. -/
theorem persistence_roundtrip_and_tamper (digest : PolicyArtifact → ℕ)
    (a p' : PolicyArtifact) (hne : digest p' ≠ digest a) :
    (∃ b, load_policy_artifact digest (save_policy_artifact digest a)
          = .ok b ∧
        b.weights = a.weights ∧ b.policy_version = a.policy_version ∧
        b.hyperparams = a.hyperparams) ∧
    load_policy_artifact digest
        { npz := some p', sha := (save_policy_artifact digest a).sha }
      = .error .shaMismatch := by
  constructor
  · exact ⟨a, by simp [load_policy_artifact, save_policy_artifact],
      rfl, rfl, rfl⟩
  · simp [load_policy_artifact, save_policy_artifact, hne, Ne.symm hne]

/-- C7 witness: round trip of a concrete artifact under the seed digest,
and rejection of the tampered payload whose digest differs. -/
theorem persistence_roundtrip_and_tamper_witness :
    (∃ b, load_policy_artifact digestSeed (save_policy_artifact digestSeed artifactA)
          = .ok b ∧
        b.weights = artifactA.weights ∧
        b.policy_version = artifactA.policy_version ∧
        b.hyperparams = artifactA.hyperparams) ∧
    load_policy_artifact digestSeed
        { npz := some artifactTampered,
          sha := (save_policy_artifact digestSeed artifactA).sha }
      = .error .shaMismatch :=
  persistence_roundtrip_and_tamper digestSeed artifactA artifactTampered
    (by norm_num [digestSeed, artifactA, artifactTampered])

/-- C3 counterexample: with the artifact file absent, `load` raises as the
claim says, but planner construction leaves `rl_enabled = true` (the
`_load_model` early return), contradicting the claim that reinforcement is
disabled in that case. -/
theorem absent_artifact_keeps_rl_enabled :
    (∃ e, load_policy_artifact digestZero absentFiles = .error e) ∧
    (mkPlannerRLState digestZero absentFiles).rl_enabled = true :=
  ⟨⟨.fileNotFound, rfl⟩, rfl⟩

/-- C3 amended: `load_policy_artifact` raises whenever the artifact file or
its sidecar is absent or the stored digest mismatches the recomputed one;
after planner construction, `rl_enabled = false` whenever the artifact file
is present but loading raises; when the artifact file is absent the loader
is skipped and `rl_enabled` stays true. -/
theorem load_fails_closed (digest : PolicyArtifact → ℕ) (fs : SavedFiles) :
    ((fs.npz = none ∨ fs.sha = none ∨
        (∃ p, fs.npz = some p ∧ fs.sha ≠ some (digest p))) →
      ∃ e, load_policy_artifact digest fs = .error e) ∧
    (∀ p, fs.npz = some p →
      (∃ e, load_policy_artifact digest fs = .error e) →
      (mkPlannerRLState digest fs).rl_enabled = false) ∧
    (fs.npz = none → (mkPlannerRLState digest fs).rl_enabled = true) := by
  obtain ⟨npz, sha⟩ := fs
  refine ⟨?_, ?_, ?_⟩
  · rintro (h | h | ⟨p, hp, hne⟩)
    · subst h; exact ⟨.fileNotFound, rfl⟩
    · subst h
      cases npz with
      | none => exact ⟨.fileNotFound, rfl⟩
      | some q => exact ⟨.fileNotFound, rfl⟩
    · cases hp
      cases sha with
      | none => exact ⟨.fileNotFound, rfl⟩
      | some s =>
        refine ⟨.shaMismatch, ?_⟩
        have hs : s ≠ digest p := by
          intro h; exact hne (by simp [h])
        simp [load_policy_artifact, hs]
  · rintro p hp ⟨e, he⟩
    cases hp
    simp only [mkPlannerRLState, load_model, Option.isNone_some, if_false, he,
      Bool.false_eq_true]
  · rintro h
    cases h
    rfl

/-- C3 witness: a present artifact whose sidecar digest mismatches makes
`load` raise and construction disable reinforcement; the absent-file case
keeps it enabled. -/
theorem load_fails_closed_witness :
    (∃ e, load_policy_artifact digestSeed
        { npz := some artifactA, sha := some 7 } = .error e) ∧
    (mkPlannerRLState digestSeed
        { npz := some artifactA, sha := some 7 }).rl_enabled = false ∧
    (mkPlannerRLState digestSeed absentFiles).rl_enabled = true := by
  have h := load_fails_closed digestSeed { npz := some artifactA, sha := some 7 }
  have herr : ∃ e, load_policy_artifact digestSeed
      { npz := some artifactA, sha := some 7 } = .error e :=
    h.1 (Or.inr (Or.inr ⟨artifactA, rfl, by norm_num [digestSeed, artifactA]⟩))
  refine ⟨herr, h.2.1 artifactA rfl herr, ?_⟩
  exact (load_fails_closed digestSeed absentFiles).2.2 rfl

/-- C8: reinforcement training is deterministic under a fixed seed — two
planners built from scratch (zero table, reinforcement enabled) that see
the same seed-derived draw streams and train for the same number of epochs
end with identical Q-tables, whatever the wall-clock stamps and counter
fields are. -/
theorem train_deterministic_under_seed (uS : ℕ → ℚ) (iS : ℕ → ℕ)
    (noise : ℕ → ℚ) (epochs : ℕ) (t1 t2 : ℤ) (td1 td2 : ℚ) (u1 u2 : ℕ)
    (v1 v2 : String) :
    (planner_train
        { q := zeroQ, rl_enabled := true, rl_last_td_error := td1,
          rl_updates := u1, rl_policy_version := v1 }
        uS iS noise epochs t1).q
      = (planner_train
          { q := zeroQ, rl_enabled := true, rl_last_td_error := td2,
            rl_updates := u2, rl_policy_version := v2 }
          uS iS noise epochs t2).q := by
  rfl

/-- One candidate step of `decide_with_stability` preserves the loop
invariant: the best action is still the initial 2 while no candidate has
survived, and any recorded best passed the budget gate at some index. -/
lemma decideStep_preserves (noise : ℕ → ℚ) (rl : Bool) (row : ℕ → ℚ)
    (st : ℚ × ℚ) (acc : DecideAcc) (a : ℕ)
    (h1 : acc.bestScore = none → acc.best = 2)
    (h2 : acc.bestScore ≠ none →
      ∃ k, budget_gate noise k st acc.best = true) :
    ((decideStep noise rl row st acc a).bestScore = none →
      (decideStep noise rl row st acc a).best = 2) ∧
    ((decideStep noise rl row st acc a).bestScore ≠ none →
      ∃ k, budget_gate noise k st (decideStep noise rl row st acc a).best
        = true) := by
  unfold decideStep
  by_cases hmem : a ∈ acc.seen
  · simp only [if_pos hmem]
    exact ⟨h1, h2⟩
  · simp only [if_neg hmem]
    by_cases hgate : budget_gate noise acc.k st a = false
    · simp only [if_pos hgate]
      exact ⟨h1, h2⟩
    · simp only [if_neg hgate]
      have hgate' : budget_gate noise acc.k st a = true := by
        simpa using hgate
      by_cases hdv : ¬ lyapunovDeltaV st
          (max (st.1 - (estimate_params noise (acc.k + 3) a).2.1) 0,
           max (st.2 - (estimate_params noise (acc.k + 3) a).2.1 * (1/2)) 0)
          targetState < 0
      · simp only [if_pos hdv]
        exact ⟨h1, h2⟩
      · simp only [if_neg hdv]
        by_cases hbetter : (match acc.bestScore with
            | none => true
            | some b => decide (b <
                (if rl then row a else 0) +
                -lyapunovDeltaV st
                  (max (st.1 - (estimate_params noise (acc.k + 3) a).2.1) 0,
                   max (st.2 - (estimate_params noise (acc.k + 3) a).2.1 * (1/2)) 0)
                  targetState)) = true

        · simp only [if_pos hbetter]
          exact ⟨fun h => by simp at h, fun _ => ⟨acc.k, hgate'⟩⟩
        · simp only [if_neg hbetter]
          exact ⟨h1, h2⟩

/-- The candidate fold of `decide_with_stability` maintains the invariant
of `decideStep_preserves` along any candidate list. -/
lemma decideStep_foldl_gate (noise : ℕ → ℚ) (rl : Bool) (row : ℕ → ℚ)
    (st : ℚ × ℚ) (cands : List ℕ) (acc : DecideAcc)
    (h1 : acc.bestScore = none → acc.best = 2)
    (h2 : acc.bestScore ≠ none →
      ∃ k, budget_gate noise k st acc.best = true) :
    ((cands.foldl (decideStep noise rl row st) acc).bestScore = none →
      (cands.foldl (decideStep noise rl row st) acc).best = 2) ∧
    ((cands.foldl (decideStep noise rl row st) acc).bestScore ≠ none →
      ∃ k, budget_gate noise k st
        (cands.foldl (decideStep noise rl row st) acc).best = true) := by
  induction cands generalizing acc with
  | nil => exact ⟨h1, h2⟩
  | cons a rest ih =>
    simp only [List.foldl_cons]
    have hstep := decideStep_preserves noise rl row st acc a h1 h2
    exact ih (decideStep noise rl row st acc a) hstep.1 hstep.2

/-- C2 amended: for every state and every draw stream,
`decide_with_stability` returns either an action that passed the budget
feasibility precheck at the moment it was evaluated, or the fixed reject
action 2 as the no-survivor fallback (which need not itself pass the
precheck). -/
theorem decide_with_stability_gate_or_reject (noise : ℕ → ℚ)
    (rl_enabled force_simplify : Bool) (qt : QTable) (lqrAction : ℕ)
    (st : ℚ × ℚ) :
    decide_with_stability noise rl_enabled force_simplify qt lqrAction st = 2 ∨
    ∃ k, budget_gate noise k st
        (decide_with_stability noise rl_enabled force_simplify qt lqrAction st)
      = true := by
  have h := decideStep_foldl_gate noise rl_enabled (qRow qt st) st
    ((if rl_enabled then (propose_action_distribution qt st 3).map (·.1) else [])
      ++ [min lqrAction 2, decide_rule_based force_simplify st])
    { best := 2, bestScore := none, seen := [], k := 0 }
    (fun _ => rfl) (fun hc => absurd rfl hc)
  by_cases hb : (((if rl_enabled
        then (propose_action_distribution qt st 3).map (·.1) else [])
      ++ [min lqrAction 2, decide_rule_based force_simplify st]).foldl
        (decideStep noise rl_enabled (qRow qt st) st)
        { best := 2, bestScore := none, seen := [], k := 0 }).bestScore = none
  · exact Or.inl (h.1 hb)
  · exact Or.inr (h.2 hb)

/-- At state `(0, 0)` with unit noise the estimated cost is positive for
every action, so the budget gate fails at every index. -/
lemma gate_zero_state_false (k a : ℕ) :
    budget_gate oneNoise k (0, 0) a = false := by
  rcases a with _ | _ | _ | n <;>
    simp only [budget_gate, estimate_params, baseParams, oneNoise,
      decide_eq_false_iff_not] <;>
    norm_num

/-- When every budget gate fails, the candidate fold of
`decide_with_stability` never moves off the initial best action. -/
lemma foldl_all_gates_fail (noise : ℕ → ℚ) (rl : Bool) (row : ℕ → ℚ)
    (st : ℚ × ℚ) (hg : ∀ k a, budget_gate noise k st a = false)
    (cands : List ℕ) :
    ∀ acc : DecideAcc,
      (cands.foldl (decideStep noise rl row st) acc).best = acc.best := by
  induction cands with
  | nil => intro acc; rfl
  | cons a rest ih =>
    intro acc
    simp only [List.foldl_cons]
    rw [ih]
    unfold decideStep
    by_cases hmem : a ∈ acc.seen
    · simp [hmem]
    · simp [hmem, hg acc.k a]

/-- C2 counterexample: at state `(0, 0)` with every noise draw equal to 1,
every candidate fails the budget gate, and `decide_with_stability` returns
the reject action 2 even though the precheck for action 2 fails at every
noise index — the returned action does not pass the precheck. -/
theorem decide_returns_gated_reject :
    decide_with_stability oneNoise true false zeroQ 0 (0, 0) = 2 ∧
    ∀ k, budget_gate oneNoise k (0, 0) 2 = false := by
  refine ⟨?_, fun k => gate_zero_state_false k 2⟩
  exact foldl_all_gates_fail oneNoise true (qRow zeroQ (0, 0)) (0, 0)
    (fun k a => gate_zero_state_false k a)
    ((if true then (propose_action_distribution zeroQ (0, 0) 3).map (·.1) else [])
      ++ [min 0 2, decide_rule_based false (0, 0)])
    { best := 2, bestScore := none, seen := [], k := 0 }

/-- A `find_nash_equilibrium` call whose key is cached and whose time is
within the TTL of the last computation returns the cached mapping, mutates
nothing, and runs no prediction. -/
lemma find_nash_hit (st : GTState) (now : ℚ) (v : List (String × ℚ))
    (hv : st.cache.lookup (cacheKey st) = some v)
    (ht : now - st.cache_t < 1) :
    find_nash_equilibrium st now
      = { result := v, state := st, predictCalls := 0 } := by
  simp only [find_nash_equilibrium, hv]
  rw [if_pos ⟨rfl, ht⟩]
  rfl

/-- A `find_nash_equilibrium` call that misses the cache computes the
fixed point, stores it under the current key, and stamps `cache_t`. -/
lemma find_nash_miss (st : GTState) (now : ℚ)
    (hm : ¬ ((st.cache.lookup (cacheKey st)).isSome = true ∧
      now - st.cache_t < 1)) :
    find_nash_equilibrium st now
      = { result := (nashLoop st 10 [] 0).1,
          state := { st with
            cache := (cacheKey st, (nashLoop st 10 [] 0).1) :: st.cache,
            cache_t := now },
          predictCalls := (nashLoop st 10 [] 0).2 } := by
  simp only [find_nash_equilibrium]
  rw [if_neg hm]

/-- Whatever its starting accumulator, the fixed-point loop of
`find_nash_equilibrium` returns the (iteration-independent) strategies of
one pass. -/
lemma nashLoop_result (st : GTState) :
    ∀ (n : ℕ) (strat : List (String × ℚ)) (cnt : ℕ),
      (nashLoop st (n + 1) strat cnt).1 = computeStrategiesOnce st := by
  intro n
  induction n with
  | zero =>
    intro strat cnt
    unfold nashLoop
    cases hc : convergedStrategies st (computeStrategiesOnce st) <;>
      simp [nashLoop, hc]
  | succ m ih =>
    intro strat cnt
    unfold nashLoop
    cases hc : convergedStrategies st (computeStrategiesOnce st) <;>
      simp [hc]
    exact ih _ _

/-- Each executed pass of the fixed-point loop invokes
`predict_next_usage` once per module, so running it at all performs at
least one pass's worth of predictions. -/
lemma nashLoop_count (st : GTState) :
    ∀ (n : ℕ) (strat : List (String × ℚ)) (cnt : ℕ),
      cnt + st.modules.length ≤ (nashLoop st (n + 1) strat cnt).2 := by
  intro n
  induction n with
  | zero =>
    intro strat cnt
    unfold nashLoop
    cases hc : convergedStrategies st (computeStrategiesOnce st) <;>
      simp [nashLoop, hc]
  | succ m ih =>
    intro strat cnt
    unfold nashLoop
    cases hc : convergedStrategies st (computeStrategiesOnce st) <;>
      simp [hc]
    exact le_trans (by omega) (ih _ _)

/-- The recomputed equilibrium for `freshGT`'s module state: the single
module has no usage history, predicted usage 0, no violations, hence
optimal value `min 1000 0 = 0`. -/
lemma freshGT_recompute : computeStrategiesOnce cachedGT = [(nmM, 0)] := by
  have hpred : predict_next_usage cachedGT nmM = 0 := by
    simp [predict_next_usage, cachedGT, freshGT, List.lookup, cexModule]
  simp only [computeStrategiesOnce, List.map, hpred]
  norm_num [cachedGT, freshGT, cexModule, List.filter]

/-- C5 counterexample: against `cachedGT` (its cache written by a
computation at time 0), a first call at time 0.9 and a second at time 1.5
are within the TTL of each other with no module change in between, yet the
second call re-runs prediction and returns a different mapping: the TTL is
measured from the last computation, not from the first call. -/
theorem nash_cache_recomputes_within_call_ttl :
    ((3:ℚ)/2 - 9/10 < 1) ∧
    (find_nash_equilibrium (find_nash_equilibrium cachedGT (9/10)).state
        (3/2)).predictCalls ≠ 0 ∧
    (find_nash_equilibrium (find_nash_equilibrium cachedGT (9/10)).state
        (3/2)).result
      ≠ (find_nash_equilibrium cachedGT (9/10)).result := by
  have hlook : cachedGT.cache.lookup (cacheKey cachedGT)
      = some [(nmM, 42)] := by
    show List.lookup (cacheKey freshGT) [(cacheKey freshGT, [(nmM, 42)])] = _
    simp [List.lookup]
  have hfirst := find_nash_hit cachedGT (9/10) [(nmM, 42)] hlook
    (by rw [show cachedGT.cache_t = 0 from rfl]; norm_num)
  rw [hfirst]
  have hmiss : ¬ ((cachedGT.cache.lookup (cacheKey cachedGT)).isSome = true ∧
      (3:ℚ)/2 - cachedGT.cache_t < 1) := by
    rintro ⟨-, hlt⟩
    rw [show cachedGT.cache_t = 0 from rfl] at hlt
    norm_num at hlt
  have hsecond := find_nash_miss cachedGT (3/2) hmiss
  refine ⟨by norm_num, ?_, ?_⟩
  · show (find_nash_equilibrium cachedGT (3/2)).predictCalls ≠ 0
    rw [hsecond]
    have hcnt := nashLoop_count cachedGT 9 [] 0
    norm_num at hcnt
    have hlen : cachedGT.modules.length = 1 := rfl
    rw [hlen] at hcnt
    show (nashLoop cachedGT 10 [] 0).2 ≠ 0
    omega
  · show (find_nash_equilibrium cachedGT (3/2)).result ≠ [(nmM, 42)]
    rw [hsecond]
    show (nashLoop cachedGT 10 [] 0).1 ≠ _
    rw [show (10 : ℕ) = 9 + 1 from rfl, nashLoop_result cachedGT 9 [] 0,
      freshGT_recompute]
    simp

/-- C5 amended: two `find_nash_equilibrium` calls with no state change in
between return the same mapping with no prediction invoked, provided the
second call is within the TTL of the last computation (`cache_t` after the
first call) — in particular whenever the first call itself was a cache
miss and the second call follows it within the TTL. -/
theorem find_nash_cached_within_computation_ttl (st : GTState) (t1 t2 : ℚ)
    (h : t2 - (find_nash_equilibrium st t1).state.cache_t < 1) :
    find_nash_equilibrium (find_nash_equilibrium st t1).state t2
      = { result := (find_nash_equilibrium st t1).result,
          state := (find_nash_equilibrium st t1).state,
          predictCalls := 0 } := by
  by_cases h1 : (st.cache.lookup (cacheKey st)).isSome = true ∧
      t1 - st.cache_t < 1
  · obtain ⟨v, hv⟩ := Option.isSome_iff_exists.mp h1.1
    have hfst := find_nash_hit st t1 v hv h1.2
    rw [hfst] at h ⊢
    exact find_nash_hit st t2 v hv h
  · have hfst := find_nash_miss st t1 h1
    rw [hfst] at h ⊢
    have hlook : List.lookup
        (cacheKey { st with
          cache := (cacheKey st, (nashLoop st 10 [] 0).1) :: st.cache,
          cache_t := t1 })
        ((cacheKey st, (nashLoop st 10 [] 0).1) :: st.cache)
        = some (nashLoop st 10 [] 0).1 := by
      rw [show cacheKey { st with
          cache := (cacheKey st, (nashLoop st 10 [] 0).1) :: st.cache,
          cache_t := t1 } = cacheKey st from rfl]
      simp [List.lookup]
    exact find_nash_hit _ t2 _ hlook h

/-- C5 witness: from the empty cache, a first call at time 0 computes and a
second at time 0.5 (within the TTL of that computation) returns the same
mapping without prediction. -/
theorem find_nash_cached_witness :
    find_nash_equilibrium (find_nash_equilibrium freshGT 0).state (1/2)
      = { result := (find_nash_equilibrium freshGT 0).result,
          state := (find_nash_equilibrium freshGT 0).state,
          predictCalls := 0 } :=
  find_nash_cached_within_computation_ttl freshGT 0 (1/2)
    (by rw [show (find_nash_equilibrium freshGT 0).state.cache_t = 0 from rfl]
        norm_num)

/-- `getD` at the overwritten index. -/
lemma getD_set_self (l : List ℚ) (i : ℕ) (a : ℚ) (h : i < l.length) :
    (l.set i a).getD i 0 = a := by
  induction l generalizing i with
  | nil => simp at h
  | cons x xs ih =>
    cases i with
    | zero => rfl
    | succ n => simpa using ih n (by simpa using h)

/-- `getD` away from the overwritten index. -/
lemma getD_set_ne (l : List ℚ) (i j : ℕ) (a : ℚ) (h : j ≠ i) :
    (l.set i a).getD j 0 = l.getD j 0 := by
  induction l generalizing i j with
  | nil => rfl
  | cons x xs ih =>
    cases i with
    | zero =>
      cases j with
      | zero => exact absurd rfl h
      | succ k => rfl
    | succ n =>
      cases j with
      | zero => rfl
      | succ k => simpa using ih n k (fun hk => h (by rw [hk]))

/-- Overwriting one entry shifts the sum by the difference. -/
lemma sum_set_q (l : List ℚ) (i : ℕ) (a : ℚ) (h : i < l.length) :
    (l.set i a).sum = l.sum - l.getD i 0 + a := by
  induction l generalizing i with
  | nil => simp at h
  | cons x xs ih =>
    cases i with
    | zero =>
      simp only [List.set, List.sum_cons, List.getD_cons_zero]
      ring
    | succ n =>
      have hn : n < xs.length := by simpa using h
      simp only [List.set, List.sum_cons, List.getD_cons_succ, ih n hn]
      ring

/-- `transferGive` keeps the list length. -/
lemma length_transferGive (rems : List ℚ) (s d : ℕ) (g : ℚ) :
    (transferGive rems s d g).length = rems.length := by
  simp [transferGive]

/-- A transfer between in-range indices conserves the total (also when the
donor and the recipient coincide, since the recipient read happens after
the donor write). -/
lemma sum_transferGive (rems : List ℚ) (s d : ℕ) (g : ℚ)
    (hs : s < rems.length) (hd : d < rems.length) :
    (transferGive rems s d g).sum = rems.sum := by
  simp only [transferGive]
  rw [sum_set_q _ d _ (by simpa using hd),
    sum_set_q _ s _ hs]
  ring

/-- One donor pass keeps the list length. -/
lemma length_donorStep (defc : List (ℕ × ℚ)) (rems : List ℚ)
    (donor : ℕ × ℚ) : (donorStep defc rems donor).length = rems.length := by
  unfold donorStep
  cases h : defc.find? (fun dd => decide (10 < min donor.2 dd.2)) with
  | none => rfl
  | some dd => simp [length_transferGive]

/-- One donor pass conserves the total when all indices are in range. -/
lemma sum_donorStep (defc : List (ℕ × ℚ)) (rems : List ℚ) (donor : ℕ × ℚ)
    (hs : donor.1 < rems.length) (hd : ∀ p ∈ defc, p.1 < rems.length) :
    (donorStep defc rems donor).sum = rems.sum := by
  unfold donorStep
  cases h : defc.find? (fun dd => decide (10 < min donor.2 dd.2)) with
  | none => rfl
  | some dd =>
    exact sum_transferGive _ _ _ _ hs (hd dd (List.mem_of_find?_eq_some h))

/-- The donor fold keeps the list length. -/
lemma length_foldl_donorStep (defc : List (ℕ × ℚ)) (sur : List (ℕ × ℚ)) :
    ∀ rems : List ℚ,
      (sur.foldl (donorStep defc) rems).length = rems.length := by
  induction sur with
  | nil => intro rems; rfl
  | cons p rest ih =>
    intro rems
    simp only [List.foldl_cons]
    rw [ih, length_donorStep]

/-- The donor fold conserves the total when all indices are in range. -/
lemma sum_foldl_donorStep (defc : List (ℕ × ℚ)) (sur : List (ℕ × ℚ)) :
    ∀ rems : List ℚ, (∀ p ∈ sur, p.1 < rems.length) →
      (∀ p ∈ defc, p.1 < rems.length) →
      (sur.foldl (donorStep defc) rems).sum = rems.sum := by
  induction sur with
  | nil => intro rems _ _; rfl
  | cons p rest ih =>
    intro rems hs hd
    simp only [List.foldl_cons]
    rw [ih _ ?_ ?_, sum_donorStep defc rems p (hs p (by simp)) hd]
    · intro q hq
      rw [length_donorStep]
      exact hs q (by simp [hq])
    · intro q hq
      rw [length_donorStep]
      exact hd q hq

/-- Indices produced by `surplusListAux` lie in `[i, i + length)`. -/
lemma mem_surplusListAux_bound :
    ∀ (ms : List AdaptiveModuleBudget) (i : ℕ) (p : ℕ × ℚ),
      p ∈ surplusListAux i ms → i ≤ p.1 ∧ p.1 < i + ms.length := by
  intro ms
  induction ms with
  | nil => intro i p h; simp [surplusListAux] at h
  | cons m rest ih =>
    intro i p h
    simp only [surplusListAux] at h
    rcases List.mem_append.mp h with h1 | h2
    · by_cases hc : 3/2 * max 1 m.usage < m.budget_remaining
      · rw [if_pos hc] at h1
        simp only [List.mem_singleton] at h1
        subst h1
        simp only [List.length_cons]
        omega
      · rw [if_neg hc] at h1
        simp at h1
    · have := ih (i + 1) p h2
      simp only [List.length_cons]
      omega

/-- Indices produced by `deficitListAux` lie in `[i, i + length)`. -/
lemma mem_deficitListAux_bound :
    ∀ (ms : List AdaptiveModuleBudget) (i : ℕ) (p : ℕ × ℚ),
      p ∈ deficitListAux i ms → i ≤ p.1 ∧ p.1 < i + ms.length := by
  intro ms
  induction ms with
  | nil => intro i p h; simp [deficitListAux] at h
  | cons m rest ih =>
    intro i p h
    simp only [deficitListAux] at h
    rcases List.mem_append.mp h with h1 | h2
    · by_cases hc : m.budget_remaining < 1/5 * m.initial_budget
      · rw [if_pos hc] at h1
        simp only [List.mem_singleton] at h1
        subst h1
        simp only [List.length_cons]
        omega
      · rw [if_neg hc] at h1
        simp at h1
    · have := ih (i + 1) p h2
      simp only [List.length_cons]
      omega

/-- Each surplus entry `(i + j, amt)` comes from module `j` satisfying the
surplus condition, with `amt` its remaining balance minus its usage. -/
lemma mem_surplusListAux_spec :
    ∀ (ms : List AdaptiveModuleBudget) (i : ℕ) (p : ℕ × ℚ),
      p ∈ surplusListAux i ms →
      ∃ j, j < ms.length ∧ p.1 = i + j ∧
        3/2 * max 1 (ms.getD j default).usage
          < (ms.getD j default).budget_remaining ∧
        p.2 = (ms.getD j default).budget_remaining
          - (ms.getD j default).usage := by
  intro ms
  induction ms with
  | nil => intro i p h; simp [surplusListAux] at h
  | cons m rest ih =>
    intro i p h
    simp only [surplusListAux] at h
    rcases List.mem_append.mp h with h1 | h2
    · by_cases hc : 3/2 * max 1 m.usage < m.budget_remaining
      · rw [if_pos hc] at h1
        simp only [List.mem_singleton] at h1
        subst h1
        exact ⟨0, by simp, by simp, by simpa using hc, by simp⟩
      · rw [if_neg hc] at h1
        simp at h1
    · obtain ⟨j, hj, hfst, hcond, hamt⟩ := ih (i + 1) p h2
      exact ⟨j + 1, by simpa using hj, by omega,
        by simpa using hcond, by simpa using hamt⟩

/-- The surplus indices are pairwise distinct (each module is scanned
once). -/
lemma surplusListAux_pairwise (ms : List AdaptiveModuleBudget) :
    ∀ i, (surplusListAux i ms).Pairwise (fun a b => a.1 ≠ b.1) := by
  induction ms with
  | nil => intro i; simp [surplusListAux]
  | cons m rest ih =>
    intro i
    simp only [surplusListAux]
    by_cases hc : 3/2 * max 1 m.usage < m.budget_remaining
    · rw [if_pos hc]
      simp only [List.singleton_append]
      refine List.Pairwise.cons ?_ (ih (i + 1))
      intro q hq
      have := mem_surplusListAux_bound rest (i + 1) q hq
      omega
    · rw [if_neg hc]
      simpa using ih (i + 1)

/-- Pointwise effect of one donor pass: indices other than the donor never
lose funds, and the donor loses at most its declared surplus amount. -/
lemma donorStep_getD_bounds (defc : List (ℕ × ℚ)) (rems : List ℚ)
    (donor : ℕ × ℚ) (hs : donor.1 < rems.length) (hpos : 0 ≤ donor.2)
    (hd : ∀ p ∈ defc, p.1 < rems.length) :
    (∀ j, j < rems.length → j ≠ donor.1 →
      rems.getD j 0 ≤ (donorStep defc rems donor).getD j 0) ∧
    rems.getD donor.1 0 - donor.2
      ≤ (donorStep defc rems donor).getD donor.1 0 := by
  unfold donorStep
  cases hf : defc.find? (fun dd => decide (10 < min donor.2 dd.2)) with
  | none =>
    refine ⟨fun j _ _ => le_refl _, ?_⟩
    linarith
  | some dd =>
    have hgive : 10 < min donor.2 dd.2 := by
      have := List.find?_some hf
      simpa using this
    have hdd : dd.1 < rems.length := hd dd (List.mem_of_find?_eq_some hf)
    simp only [transferGive]
    constructor
    · intro j hj hne
      by_cases hjd : j = dd.1
      · subst hjd
        rw [getD_set_self _ _ _ (by simpa using hdd),
          getD_set_ne _ _ _ _ hne]
        linarith
      · rw [getD_set_ne _ _ _ _ hjd, getD_set_ne _ _ _ _ hne]
    · by_cases hsd : donor.1 = dd.1
      · rw [hsd, getD_set_self _ _ _ (by simpa using hdd),
          getD_set_self _ _ _ (hsd ▸ hs)]
        have hmin : min donor.2 dd.2 ≤ donor.2 := min_le_left _ _
        linarith
      · rw [getD_set_ne _ _ _ _ (fun hx => hsd hx),
          getD_set_self _ _ _ hs]
        have hmin : min donor.2 dd.2 ≤ donor.2 := min_le_left _ _
        linarith

/-- Invariant of the donor fold: if every index currently holds at least
its module's usage, and every pending donor (with pairwise-distinct
indices) can still afford its declared amount on top of its usage, then
after the fold every index still holds at least its module's usage. -/
lemma foldl_donor_keeps_usage_floor (defc : List (ℕ × ℚ))
    (usageOf : ℕ → ℚ) :
    ∀ (todo : List (ℕ × ℚ)) (rems : List ℚ),
      todo.Pairwise (fun a b => a.1 ≠ b.1) →
      (∀ p ∈ defc, p.1 < rems.length) →
      (∀ j, j < rems.length → usageOf j ≤ rems.getD j 0) →
      (∀ p ∈ todo, p.1 < rems.length ∧ 0 ≤ p.2 ∧
        p.2 + usageOf p.1 ≤ rems.getD p.1 0) →
      ∀ j, j < rems.length →
        usageOf j ≤ (todo.foldl (donorStep defc) rems).getD j 0 := by
  intro todo
  induction todo with
  | nil => intro rems _ _ hlow _ j hj; exact hlow j hj
  | cons p rest ih =>
    intro rems hpw hd hlow htodo j hj
    simp only [List.foldl_cons]
    obtain ⟨hp1, hp2, hp3⟩ := htodo p (by simp)
    have hbounds := donorStep_getD_bounds defc rems p hp1 hp2 hd
    have hlen : (donorStep defc rems p).length = rems.length :=
      length_donorStep defc rems p
    refine ih (donorStep defc rems p) (List.pairwise_cons.mp hpw).2
      ?_ ?_ ?_ j (by omega)
    · intro q hq
      rw [hlen]
      exact hd q hq
    · intro j' hj'
      rw [hlen] at hj'
      by_cases hjp : j' = p.1
      · subst hjp
        have := hbounds.2
        linarith
      · exact le_trans (hlow j' hj') (hbounds.1 j' hj' hjp)
    · intro q hq
      obtain ⟨hq1, hq2, hq3⟩ := htodo q (by simp [hq])
      have hqp : q.1 ≠ p.1 := by
        have := (List.pairwise_cons.mp hpw).1 q hq
        exact fun hx => this hx.symm
      refine ⟨by rw [hlen]; exact hq1, hq2, ?_⟩
      exact le_trans hq3 (hbounds.1 q.1 hq1 hqp)

/-- `getD` through `map (·.budget_remaining)`. -/
lemma getD_map_remaining (ms : List AdaptiveModuleBudget) :
    ∀ j, j < ms.length →
      (ms.map (·.budget_remaining)).getD j 0
        = (ms.getD j default).budget_remaining := by
  induction ms with
  | nil => intro j hj; simp at hj
  | cons m rest ih =>
    intro j hj
    cases j with
    | zero => rfl
    | succ n => simpa using ih n (by simpa using hj)

/-- `getD` of a list is a member when the index is in range. -/
lemma getD_mem_of_lt (ms : List AdaptiveModuleBudget) :
    ∀ j, j < ms.length → ms.getD j default ∈ ms := by
  induction ms with
  | nil => intro j hj; simp at hj
  | cons m rest ih =>
    intro j hj
    cases j with
    | zero => simp
    | succ n =>
      simp only [List.getD_cons_succ]
      exact List.mem_cons_of_mem m (ih n (by simpa using hj))

/-- Rebuilding the ledgers from a balance list of the right length reads
the balances back. -/
lemma map_remaining_zipWith (ms : List AdaptiveModuleBudget) :
    ∀ rs : List ℚ, rs.length = ms.length →
      ((List.zipWith (fun m r => { m with budget_remaining := r }) ms rs).map
        (·.budget_remaining)) = rs := by
  induction ms with
  | nil =>
    intro rs h
    rw [List.length_nil, List.length_eq_zero] at h
    subst h
    rfl
  | cons m rest ih =>
    intro rs h
    cases rs with
    | nil => simp at h
    | cons r rs' =>
      simp only [List.zipWith_cons_cons, List.map_cons]
      rw [ih rs' (by simpa using h)]

/-- Membership in the rebuilt ledger list comes from a position. -/
lemma mem_zipWith_rebuild (ms : List AdaptiveModuleBudget) :
    ∀ (rs : List ℚ) (x : AdaptiveModuleBudget),
      x ∈ List.zipWith (fun m r => { m with budget_remaining := r }) ms rs →
      ∃ j, j < ms.length ∧ j < rs.length ∧
        x = { ms.getD j default with budget_remaining := rs.getD j 0 } := by
  induction ms with
  | nil => intro rs x h; simp at h
  | cons m rest ih =>
    intro rs x h
    cases rs with
    | nil => simp at h
    | cons r rs' =>
      simp only [List.zipWith_cons_cons, List.mem_cons] at h
      rcases h with h | h
      · exact ⟨0, by simp, by simp, by simpa using h⟩
      · obtain ⟨j, hj1, hj2, hx⟩ := ih rs' x h
        exact ⟨j + 1, by simpa using hj1, by simpa using hj2, by simpa using hx⟩

/-- C9 counterexample: when a module's recorded usage is negative (its
surplus amount then overstates what it holds), `negotiate_resources` can
drive a ledger negative even though every `budget_remaining` was
non-negative and at least its module's usage before the call. -/
theorem negotiate_drives_negative_with_negative_usage :
    (∀ m ∈ [negUsageLedger, needyLedger],
      0 ≤ m.budget_remaining ∧ m.usage ≤ m.budget_remaining) ∧
    ¬ (∀ m ∈ negotiate_resources [negUsageLedger, needyLedger],
        0 ≤ m.budget_remaining) := by
  constructor
  · intro m hm
    rcases List.mem_cons.mp hm with h | hm'
    · subst h
      constructor <;> norm_num [negUsageLedger]
    · rcases List.mem_cons.mp hm' with h | h
      · subst h
        constructor <;> norm_num [needyLedger]
      · simp at h
  · intro hall
    have hmem : ({ negUsageLedger with budget_remaining := (-3 : ℚ) })
        ∈ negotiate_resources [negUsageLedger, needyLedger] := by
      have : negotiate_resources [negUsageLedger, needyLedger]
          = [{ negUsageLedger with budget_remaining := (-3 : ℚ) },
             { needyLedger with budget_remaining := (20 : ℚ) }] := by
        norm_num [negotiate_resources, surplusListAux, deficitListAux,
          donorStep, transferGive, List.find?, negUsageLedger, needyLedger]
      rw [this]
      simp
    have := hall _ hmem
    norm_num at this

/-- C9: `negotiate_resources` conserves the summed `budget_remaining`; and
(amended) if every module's usage is non-negative and its
`budget_remaining` is at least its usage before the call, then no module's
`budget_remaining` becomes negative. -/
theorem negotiate_resources_conserves (ms : List AdaptiveModuleBudget) :
    ((negotiate_resources ms).map (·.budget_remaining)).sum
        = (ms.map (·.budget_remaining)).sum ∧
    ((∀ m ∈ ms, 0 ≤ m.usage ∧ m.usage ≤ m.budget_remaining) →
      ∀ m ∈ negotiate_resources ms, 0 ≤ m.budget_remaining) := by
  have hlen0 : (ms.map (·.budget_remaining)).length = ms.length :=
    List.length_map _ _
  have hsurb : ∀ p ∈ surplusListAux 0 ms,
      p.1 < (ms.map (·.budget_remaining)).length := by
    intro p hp
    rw [hlen0]
    have := mem_surplusListAux_bound ms 0 p hp
    omega
  have hdefb : ∀ p ∈ deficitListAux 0 ms,
      p.1 < (ms.map (·.budget_remaining)).length := by
    intro p hp
    rw [hlen0]
    have := mem_deficitListAux_bound ms 0 p hp
    omega
  have hflen : ((surplusListAux 0 ms).foldl (donorStep (deficitListAux 0 ms))
      (ms.map (·.budget_remaining))).length = ms.length := by
    rw [length_foldl_donorStep, hlen0]
  constructor
  · simp only [negotiate_resources]
    rw [map_remaining_zipWith ms _ hflen]
    exact sum_foldl_donorStep _ _ _ hsurb hdefb
  · intro hpre m hm
    simp only [negotiate_resources] at hm
    obtain ⟨j, hj1, hj2, hx⟩ := mem_zipWith_rebuild ms _ m hm
    subst hx
    show (0:ℚ) ≤ ((surplusListAux 0 ms).foldl (donorStep (deficitListAux 0 ms))
      (ms.map (·.budget_remaining))).getD j 0
    have hfloor := foldl_donor_keeps_usage_floor (deficitListAux 0 ms)
      (fun k => (ms.getD k default).usage) (surplusListAux 0 ms)
      (ms.map (·.budget_remaining))
      (surplusListAux_pairwise ms 0) hdefb ?_ ?_ j (by omega)
    · have husage : 0 ≤ (ms.getD j default).usage :=
        (hpre _ (getD_mem_of_lt ms j hj1)).1
      exact le_trans husage hfloor
    · intro k hk
      rw [hlen0] at hk
      rw [getD_map_remaining ms k hk]
      exact (hpre _ (getD_mem_of_lt ms k hk)).2
    · intro p hp
      obtain ⟨i, hi, hfst, hcond, hamt⟩ := mem_surplusListAux_spec ms 0 p hp
      have hfst0 : p.1 = i := by omega
      have hmem := getD_mem_of_lt ms i hi
      rw [hfst0, hamt]
      refine ⟨by rw [hlen0]; exact hi, ?_, ?_⟩
      · have := (hpre _ hmem).2
        linarith
      · rw [getD_map_remaining ms i hi]
        linarith

/-- C9 witness: a two-module instance where one donor feeds one deficit;
the total is conserved and both ledgers stay non-negative. -/
theorem negotiate_resources_conserves_witness :
    (((negotiate_resources [donorLedger, needyLedger]).map
        (·.budget_remaining)).sum
      = ([donorLedger, needyLedger].map (·.budget_remaining)).sum) ∧
    (∀ m ∈ negotiate_resources [donorLedger, needyLedger],
      0 ≤ m.budget_remaining) := by
  have h := negotiate_resources_conserves [donorLedger, needyLedger]
  refine ⟨h.1, h.2 ?_⟩
  intro m hm
  rcases List.mem_cons.mp hm with hx | hm'
  · subst hx
    constructor <;> norm_num [donorLedger]
  · rcases List.mem_cons.mp hm' with hx | hx
    · subst hx
      constructor <;> norm_num [needyLedger]
    · simp at hx

end SCC
